import Mathlib

/-!
Verification of the group coordination and membership-reconciliation engine
of the zoneos repository (src/zoneos/groups.py, class GroupManager).

The embedding models one physical device (soco.SoCo handle) as a `Device`
record carrying its stable identity (`player_name`) together with the
behaviour of its remote calls during one operation: whether `join` and
`unjoin` succeed, what the transport-state query returns (`none` models a
SoCoException raised by `get_current_transport_info`, `some none` a falsy
or state-less reply, `some (some s)` a reply carrying transport state `s`),
and the device's group snapshot (`none` models a failure reading
`speaker.group`; `some (c, ms)` the coordinator name and member names of
the device's own group).  Within a single public operation each device
receives at most one `join` and at most one `unjoin`, so one Boolean per
call kind per device captures every possible failure pattern of a run.

The speakers directory (Python `dict[str, soco.SoCo]`) is an association
list; the membership store (`GroupManager._coordinator`, `_members`) is the
state `St`, with the coordinator represented by its player name (the code
only ever reads `self._coordinator.player_name` and passes the handle as a
join target, which the call log records by name).  Python's `set[str]` is a
duplicate-free `List String`.  A raised exception is `some e` in the
`result` field; device calls actually issued (including the failing one)
are logged in order in `calls`.
-/

namespace Zoneos

/-- One physical device handle together with the behaviour of its remote
calls during the operation being modelled. -/
structure Device where
  player_name : String
  joinOk : Bool
  unjoinOk : Bool
  transport : Option (Option String)
  snapshot : Option (String × List String)
deriving DecidableEq, Repr

/-- A join/unjoin device call, recorded by player name. -/
inductive Call where
  | join (device target : String)
  | unjoin (device : String)
deriving DecidableEq, Repr

/-- The device a call was issued on. -/
def Call.device : Call → String
  | .join d _ => d
  | .unjoin d => d

/-- The exceptions that escape GroupManager methods:
`SpeakerNotFoundError` and `GroupOperationError` (a SoCoException raised by
a device call is always converted to the latter before it escapes). -/
inductive Err where
  | speakerNotFound
  | groupOperation
deriving DecidableEq, Repr

/-- The membership store: `GroupManager._coordinator` (by player name;
`none` is Python `None`) and `GroupManager._members`. -/
structure St where
  coordinator : Option String
  members : List String
deriving DecidableEq, Repr

/-- Outcome of one operation: `result = none` models a normal return,
`result = some e` the exception `e` escaping; `state` is the store after
the operation (Python mutates in place, also on paths that raise); `calls`
are the join/unjoin calls issued, in order. -/
structure Res where
  result : Option Err
  state : St
  calls : List Call
deriving DecidableEq, Repr

/-- The speakers directory `dict[str, soco.SoCo]`, in insertion order. -/
abbrev Speakers := List (String × Device)

/-- `speakers.get(name)`: first binding of `name`, if any. -/
def lookupSp : Speakers → String → Option Device
  | [], _ => none
  | (k, d) :: rest, n => if k = n then some d else lookupSp rest n

/-- Python `set.add`: append the element unless already present. -/
def sAdd (s : List String) (x : String) : List String :=
  if x ∈ s then s else s ++ [x]

/-- The scan predicate of `GroupManager.initialize`: the transport query
succeeded and reported a state in `["PLAYING", "PAUSED_PLAYBACK"]`. -/
def isActive (d : Device) : Bool :=
  match d.transport with
  | some (some s) => s ∈ (["PLAYING", "PAUSED_PLAYBACK"] : List String)
  | _ => false

/-- The playing-speaker scan of `GroupManager.initialize`: first device in
list order whose transport query succeeds and reports playing/paused
(devices whose query raises are skipped and the scan continues). -/
def findPlaying (l : List Device) : Option Device :=
  l.find? isActive

/-- The unjoin loop of the fresh-group path of `GroupManager.initialize`:
`speaker.unjoin()` on each device in order, stopping at the first
SoCoException.  Returns whether all calls succeeded, and the calls issued
(the failing one included). -/
def unjoinAll : List Device → Bool × List Call
  | [] => (true, [])
  | d :: rest =>
    if d.unjoinOk then
      let r := unjoinAll rest
      (r.1, .unjoin d.player_name :: r.2)
    else (false, [.unjoin d.player_name])

/-- The join loop of the fresh-group path of `GroupManager.initialize`:
`speaker.join(coordinator)` on each device in order, stopping at the first
SoCoException. -/
def joinAll (target : String) : List Device → Bool × List Call
  | [] => (true, [])
  | d :: rest =>
    if d.joinOk then
      let r := joinAll target rest
      (r.1, .join d.player_name target :: r.2)
    else (false, [.join d.player_name target])

/-- The fresh-group path of `GroupManager.initialize` (lines 75-94 of
groups.py): store coordinator := first device and members := all player
names BEFORE any device call, then `unjoin()` on every device in order,
then `join(coordinator)` on every non-first device in order; a
SoCoException anywhere becomes `GroupOperationError`.  The store is the
same on every exit path, having been written up front. -/
def freshGroup (first : Device) (rest : List Device) : Res :=
  match unjoinAll (first :: rest) with
  | (false, calls) =>
    ⟨some .groupOperation,
      ⟨some first.player_name, ((first :: rest).map Device.player_name).dedup⟩,
      calls⟩
  | (true, calls1) =>
    match joinAll first.player_name rest with
    | (false, calls2) =>
      ⟨some .groupOperation,
        ⟨some first.player_name, ((first :: rest).map Device.player_name).dedup⟩,
        calls1 ++ calls2⟩
    | (true, calls2) =>
      ⟨none,
        ⟨some first.player_name, ((first :: rest).map Device.player_name).dedup⟩,
        calls1 ++ calls2⟩

/-- `GroupManager.initialize(speakers)` from groups.py (the Lean name
differs from the source method name for technical reasons only).  Empty
directory: warn and return.  Otherwise scan for a playing/paused device;
if one is found and its group snapshot reads successfully, copy the
snapshot into the store verbatim with no device calls; if the snapshot
read fails, fall through to the fresh-group path. -/
def initGroup (st : St) (speakers : Speakers) : Res :=
  match speakers with
  | [] => ⟨none, st, []⟩
  | p :: ps =>
    match findPlaying (p.2 :: ps.map Prod.snd) with
    | some playing =>
      match playing.snapshot with
      | some (c, ms) => ⟨none, ⟨some c, ms.dedup⟩, []⟩
      | none => freshGroup p.2 (ps.map Prod.snd)
    | none => freshGroup p.2 (ps.map Prod.snd)

/-- `GroupManager._add_speaker(speakers, speaker_name)`: resolve the name
(`SpeakerNotFoundError` if absent); with no coordinator, bootstrap a
single-member group with no device calls; otherwise `speaker.join`
(converted to `GroupOperationError` on failure) and only then record the
name in `members`. -/
def add_speaker (st : St) (speakers : Speakers) (speaker_name : String) : Res :=
  match lookupSp speakers speaker_name with
  | none => ⟨some .speakerNotFound, st, []⟩
  | some speaker =>
    match st.coordinator with
    | none => ⟨none, ⟨some speaker.player_name, [speaker_name]⟩, []⟩
    | some c =>
      if speaker.joinOk then
        ⟨none, ⟨some c, sAdd st.members speaker_name⟩,
          [.join speaker.player_name c]⟩
      else ⟨some .groupOperation, st, [.join speaker.player_name c]⟩

/-- The rejoin loop of `GroupManager._remove_coordinator`: for each
remaining member name (after the promoted replacement), resolve it —
silently skipping names that do not resolve or whose device is the
departing speaker — then `unjoin()` and `join(new_coordinator)`; a
SoCoException stops the loop. -/
def rejoinLoop (speakers : Speakers) (departing newCoord : String) :
    List String → Bool × List Call
  | [] => (true, [])
  | n :: rest =>
    match lookupSp speakers n with
    | none => rejoinLoop speakers departing newCoord rest
    | some ms =>
      if ms.player_name = departing then
        rejoinLoop speakers departing newCoord rest
      else if ms.unjoinOk then
        if ms.joinOk then
          let r := rejoinLoop speakers departing newCoord rest
          (r.1, .unjoin ms.player_name :: .join ms.player_name newCoord :: r.2)
        else (false, [.unjoin ms.player_name, .join ms.player_name newCoord])
      else (false, [.unjoin ms.player_name])

/-- `GroupManager._remove_coordinator(speakers, speaker, speaker_name)`:
discard the name from `members` first; if no member remains, unjoin the
speaker and clear the coordinator; otherwise promote the first remaining
member (`GroupOperationError` if it does not resolve), unjoin it, install
it as coordinator, run the rejoin loop over the other remaining members,
and finally unjoin the departing old coordinator.  A SoCoException on any
call becomes `GroupOperationError` (via the caller's handler). -/
def remove_coordinator (st : St) (speakers : Speakers) (speaker : Device)
    (speaker_name : String) : Res :=
  match st.members.erase speaker_name with
  | [] =>
    if speaker.unjoinOk then ⟨none, ⟨none, []⟩, [.unjoin speaker.player_name]⟩
    else ⟨some .groupOperation, ⟨st.coordinator, []⟩,
      [.unjoin speaker.player_name]⟩
  | newName :: others =>
    match lookupSp speakers newName with
    | none => ⟨some .groupOperation, ⟨st.coordinator, newName :: others⟩, []⟩
    | some nc =>
      if nc.unjoinOk then
        match rejoinLoop speakers speaker_name nc.player_name others with
        | (true, calls) =>
          if speaker.unjoinOk then
            ⟨none, ⟨some nc.player_name, newName :: others⟩,
              .unjoin nc.player_name :: (calls ++ [.unjoin speaker.player_name])⟩
          else
            ⟨some .groupOperation, ⟨some nc.player_name, newName :: others⟩,
              .unjoin nc.player_name :: (calls ++ [.unjoin speaker.player_name])⟩
        | (false, calls) =>
          ⟨some .groupOperation, ⟨some nc.player_name, newName :: others⟩,
            .unjoin nc.player_name :: calls⟩
      else ⟨some .groupOperation, ⟨st.coordinator, newName :: others⟩,
        [.unjoin nc.player_name]⟩

/-- The non-coordinator branch of `GroupManager._remove_speaker`:
`speaker.unjoin()` (→ `GroupOperationError` on failure) and only then
discard the name from `members`. -/
def remove_plain (st : St) (speaker : Device) (speaker_name : String) : Res :=
  if speaker.unjoinOk then
    ⟨none, ⟨st.coordinator, st.members.erase speaker_name⟩,
      [.unjoin speaker.player_name]⟩
  else ⟨some .groupOperation, st, [.unjoin speaker.player_name]⟩

/-- `GroupManager._remove_speaker(speakers, speaker_name)`: resolve the
name (`SpeakerNotFoundError` if absent); no-op if not a member; delegate
to the coordinator-removal protocol when the resolved device's
player name equals the coordinator's, else to the plain branch. -/
def remove_speaker (st : St) (speakers : Speakers) (speaker_name : String) : Res :=
  match lookupSp speakers speaker_name with
  | none => ⟨some .speakerNotFound, st, []⟩
  | some speaker =>
    if speaker_name ∈ st.members then
      match st.coordinator with
      | some c =>
        if speaker.player_name = c then
          remove_coordinator st speakers speaker speaker_name
        else remove_plain st speaker speaker_name
      | none => remove_plain st speaker speaker_name
    else ⟨none, st, []⟩

/-- Python exception propagation through sequential statements: if the
first step raised, later statements do not run and the raised error, the
mutated store and the calls issued so far stand; otherwise the
continuation runs from the first step's state and the call logs
concatenate. -/
def seqRes (r : Res) (k : St → Res) : Res :=
  match r.result with
  | some e => ⟨some e, r.state, r.calls⟩
  | none => ⟨(k r.state).result, (k r.state).state, r.calls ++ (k r.state).calls⟩

/-- A Python `for name in names:` loop whose body is the store-mutating,
possibly raising `step`: run `step` on each name in order, an exception
propagating at once. -/
def opLoop (step : St → String → Res) : St → List String → Res
  | st, [] => ⟨none, st, []⟩
  | st, n :: rest =>
    seqRes (step st n) (fun st1 => opLoop step st1 rest)

/-- The add loop of `GroupManager.set_members`: `_add_speaker` on each
name in order; an exception propagates at once, keeping the state and
calls accumulated so far. -/
def addLoop (speakers : Speakers) : St → List String → Res :=
  opLoop (fun st n => add_speaker st speakers n)

/-- The remove loop of `GroupManager.set_members`: `_remove_speaker` on
each name in order; an exception propagates at once. -/
def removeLoop (speakers : Speakers) : St → List String → Res :=
  opLoop (fun st n => remove_speaker st speakers n)

/-- `to_add = new_members - current_members` of `GroupManager.set_members`,
computed against the pre-call store, in the model's processing order. -/
def toAddOf (st : St) (member_names : List String) : List String :=
  member_names.dedup.filter (fun n => decide (n ∉ st.members))

/-- `to_remove = current_members - new_members` of
`GroupManager.set_members`, computed against the pre-call store. -/
def toRemoveOf (st : St) (member_names : List String) : List String :=
  st.members.filter (fun n => decide (n ∉ member_names.dedup))

/-- `GroupManager.set_members(speakers, member_names)`: raise
`GroupOperationError` on an empty list; otherwise diff the desired set
against the current members (both sides computed before any mutation) and
run the add loop over `toAdd = desired - current`, then the remove loop
over `toRemove = current - desired`. -/
def set_members (st : St) (speakers : Speakers) (member_names : List String) :
    Res :=
  match member_names with
  | [] => ⟨some .groupOperation, st, []⟩
  | _ :: _ =>
    seqRes (addLoop speakers st (toAddOf st member_names))
      (fun st1 => removeLoop speakers st1 (toRemoveOf st member_names))

/-- `GroupManager.get_members`: the member-name set (the Python copy
semantics is immaterial for an immutable value). -/
def get_members (st : St) : List String :=
  st.members

/-- `GroupManager.get_coordinator`, by player name. -/
def get_coordinator (st : St) : Option String :=
  st.coordinator

/-- The Membership Store invariant of spec §3/§8: the coordinator is `None`
iff the members set is empty, and a set coordinator's name is a member. -/
def storeInv (st : St) : Prop :=
  (st.coordinator = none ↔ st.members = []) ∧
  ∀ c, st.coordinator = some c → c ∈ st.members

instance (st : St) : Decidable (storeInv st) := by
  unfold storeInv
  exact instDecidableAnd

/-- A device reports a well-formed group snapshot: the snapshot
coordinator's name is among the snapshot members (physically always true
on real hardware, where the coordinator belongs to its own group). -/
def snapWF (d : Device) : Prop :=
  ∀ c ms, d.snapshot = some (c, ms) → c ∈ ms

instance decSnapWF : DecidablePred snapWF := fun d =>
  match h : d.snapshot with
  | none => .isTrue (fun _ _ hc => by rw [h] at hc; cases hc)
  | some (c, ms) =>
    if hm : c ∈ ms then
      .isTrue (fun c' ms' hc => by
        rw [h] at hc
        cases hc
        exact hm)
    else .isFalse (fun hall => hm (hall c ms h))

/-- A name-coherent directory, as built by SpeakerManager._discover_speakers
(`self.speakers[speaker.player_name] = speaker`): every binding maps a name
to a device bearing exactly that name, and device snapshots are
well-formed. -/
def wellFormedDir (speakers : Speakers) : Prop :=
  ∀ p ∈ speakers, p.2.player_name = p.1 ∧ snapWF p.2

instance decWellFormedDir (speakers : Speakers) :
    Decidable (wellFormedDir speakers) :=
  List.decidableBAll _ speakers

/-- The name resolves to a device all of whose join/unjoin calls succeed. -/
def resolvedOk (speakers : Speakers) (n : String) : Bool :=
  match lookupSp speakers n with
  | some d => d.joinOk && d.unjoinOk
  | none => false

/-- States of the Membership Store reachable from the initial empty store
by any sequence of the facade's mutating operations, with arbitrary
per-call speaker directories and device behaviours, raising calls
included (the state of a raising call is the store it leaves behind). -/
inductive Reachable : St → Prop where
  | empty : Reachable ⟨none, []⟩
  | initStep (st : St) (sp : Speakers) (h : Reachable st) :
      Reachable (initGroup st sp).state
  | setStep (st : St) (sp : Speakers) (ns : List String) (h : Reachable st) :
      Reachable (set_members st sp ns).state
  | addStep (st : St) (sp : Speakers) (n : String) (h : Reachable st) :
      Reachable (add_speaker st sp n).state
  | removeStep (st : St) (sp : Speakers) (n : String) (h : Reachable st) :
      Reachable (remove_speaker st sp n).state

/-- States reachable as in `Reachable`, but only through calls that return
normally (no exception) and are supplied name-coherent directories with
well-formed snapshots. -/
inductive ReachableOk : St → Prop where
  | empty : ReachableOk ⟨none, []⟩
  | initStep (st : St) (sp : Speakers) (h : ReachableOk st)
      (hwf : wellFormedDir sp) (hok : (initGroup st sp).result = none) :
      ReachableOk (initGroup st sp).state
  | setStep (st : St) (sp : Speakers) (ns : List String) (h : ReachableOk st)
      (hwf : wellFormedDir sp) (hok : (set_members st sp ns).result = none) :
      ReachableOk (set_members st sp ns).state
  | addStep (st : St) (sp : Speakers) (n : String) (h : ReachableOk st)
      (hwf : wellFormedDir sp) (hok : (add_speaker st sp n).result = none) :
      ReachableOk (add_speaker st sp n).state
  | removeStep (st : St) (sp : Speakers) (n : String) (h : ReachableOk st)
      (hwf : wellFormedDir sp) (hok : (remove_speaker st sp n).result = none) :
      ReachableOk (remove_speaker st sp n).state

theorem seqRes_err {r : Res} {k : St → Res} {e : Err} (h : r.result = some e) :
    seqRes r k = r := by
  have h2 : seqRes r k = ⟨some e, r.state, r.calls⟩ := by
    unfold seqRes
    rw [h]
  rw [h2, ← h]

theorem seqRes_ok {r : Res} {k : St → Res} (h : r.result = none) :
    seqRes r k =
      ⟨(k r.state).result, (k r.state).state, r.calls ++ (k r.state).calls⟩ := by
  unfold seqRes
  rw [h]

/-- Membership in a Python-set `add`. -/
theorem mem_sAdd {s : List String} {x a : String} :
    a ∈ sAdd s x ↔ a ∈ s ∨ a = x := by
  unfold sAdd
  split
  · rename_i hx
    constructor
    · exact Or.inl
    · rintro (h | rfl)
      · exact h
      · exact hx
  · simp

/-- `sAdd` preserves duplicate-freeness. -/
theorem sAdd_nodup {s : List String} {x : String} (h : s.Nodup) :
    (sAdd s x).Nodup := by
  unfold sAdd
  split
  · exact h
  · rename_i hx
    simp [List.nodup_append, h, hx]

/-- In a well-formed directory every successful lookup returns a device
bearing the looked-up name, with a well-formed snapshot. -/
theorem lookupSp_wf {speakers : Speakers} {n : String} {d : Device}
    (hwf : wellFormedDir speakers) (h : lookupSp speakers n = some d) :
    d.player_name = n ∧ snapWF d := by
  induction speakers with
  | nil => cases h
  | cons p rest ih =>
    obtain ⟨k, dev⟩ := p
    have hp := hwf (k, dev) (List.mem_cons_self _ _)
    simp only [lookupSp] at h
    split at h
    · rename_i hk
      injection h with h2
      subst h2
      exact ⟨by rw [hp.1, hk], hp.2⟩
    · exact ih (fun q hq => hwf q (List.mem_cons_of_mem _ hq)) h

theorem seqRes_ok_split {r : Res} {k : St → Res}
    (h : (seqRes r k).result = none) :
    r.result = none ∧ (k r.state).result = none := by
  cases hr : r.result with
  | some e =>
    rw [seqRes_err hr, hr] at h
    cases h
  | none =>
    rw [seqRes_ok hr] at h
    exact ⟨rfl, h⟩

theorem seqRes_assoc (r : Res) (k1 k2 : St → Res) :
    seqRes (seqRes r k1) k2 = seqRes r (fun s => seqRes (k1 s) k2) := by
  cases hr : r.result with
  | some e => simp [seqRes, hr]
  | none =>
    cases hk : (k1 r.state).result with
    | some e => simp [seqRes, hr, hk]
    | none => simp [seqRes, hr, hk]

/-- Splitting a loop run at a list append. -/
theorem opLoop_append (step : St → String → Res) (ns1 ns2 : List String) :
    ∀ st, opLoop step st (ns1 ++ ns2) =
      seqRes (opLoop step st ns1) (fun s => opLoop step s ns2) := by
  induction ns1 with
  | nil =>
    intro st
    rw [List.nil_append, show opLoop step st [] = ⟨none, st, []⟩ from rfl,
      seqRes_ok rfl]
    simp
  | cons n rest ih =>
    intro st
    rw [List.cons_append]
    calc seqRes (step st n) (fun s1 => opLoop step s1 (rest ++ ns2))
        = seqRes (step st n)
            (fun s1 => seqRes (opLoop step s1 rest) (fun s => opLoop step s ns2)) := by
          congr 1
          funext s1
          exact ih s1
      _ = seqRes (seqRes (step st n) (fun s1 => opLoop step s1 rest))
            (fun s => opLoop step s ns2) := (seqRes_assoc _ _ _).symm
      _ = seqRes (opLoop step st (n :: rest)) (fun s => opLoop step s ns2) := rfl

/-- A failing loop prefix aborts the loop: the names after the point of
failure are never attempted. -/
theorem opLoop_abort (step : St → String → Res) {ns1 : List String}
    (ns2 : List String) {st : St} {e : Err}
    (h : (opLoop step st ns1).result = some e) :
    opLoop step st (ns1 ++ ns2) = opLoop step st ns1 := by
  rw [opLoop_append step ns1 ns2 st, seqRes_err h]

/-- A loop run that returns normally preserves any per-step invariant. -/
theorem opLoop_inv (step : St → String → Res) (P : St → Prop)
    (hstep : ∀ st n, P st → (step st n).result = none → P (step st n).state) :
    ∀ ns st, P st → (opLoop step st ns).result = none →
      P (opLoop step st ns).state := by
  intro ns
  induction ns with
  | nil => intro st hP _; exact hP
  | cons n rest ih =>
    intro st hP h
    rw [show opLoop step st (n :: rest) =
      seqRes (step st n) (fun s1 => opLoop step s1 rest) from rfl] at h ⊢
    obtain ⟨h1, h2⟩ := seqRes_ok_split h
    rw [seqRes_ok h1]
    exact ih _ (hstep st n hP h1) h2

/-- Unpacking `resolvedOk`. -/
theorem resolvedOk_lookup {speakers : Speakers} {n : String}
    (h : resolvedOk speakers n = true) :
    ∃ d, lookupSp speakers n = some d ∧ d.joinOk = true ∧ d.unjoinOk = true := by
  unfold resolvedOk at h
  split at h
  · rename_i d hd
    refine ⟨d, hd, ?_, ?_⟩ <;> simp_all
  · cases h

/-- A successful `_add_speaker` run is one of exactly two shapes: the
bootstrap of a fresh single-member group, or a successful join recorded in
`members`. -/
theorem add_speaker_ok {st : St} {sp : Speakers} {n : String}
    (h : (add_speaker st sp n).result = none) :
    ∃ d, lookupSp sp n = some d ∧
      ((st.coordinator = none ∧
         add_speaker st sp n = ⟨none, ⟨some d.player_name, [n]⟩, []⟩) ∨
       (∃ c, st.coordinator = some c ∧ d.joinOk = true ∧
         add_speaker st sp n =
           ⟨none, ⟨some c, sAdd st.members n⟩, [.join d.player_name c]⟩)) := by
  cases hd : lookupSp sp n with
  | none => simp [add_speaker, hd] at h
  | some d =>
    refine ⟨d, rfl, ?_⟩
    cases hc : st.coordinator with
    | none =>
      exact Or.inl ⟨rfl, by simp [add_speaker, hd, hc]⟩
    | some c =>
      by_cases hj : d.joinOk = true
      · exact Or.inr ⟨c, rfl, hj, by simp [add_speaker, hd, hc, hj]⟩
      · exfalso
        simp [add_speaker, hd, hc, hj] at h

/-- `_add_speaker` never mutates the store on a raising run. -/
theorem add_speaker_err {st : St} {sp : Speakers} {n : String} {e : Err}
    (h : (add_speaker st sp n).result = some e) :
    (add_speaker st sp n).state = st := by
  cases hd : lookupSp sp n with
  | none => simp [add_speaker, hd]
  | some d =>
    cases hc : st.coordinator with
    | none => simp [add_speaker, hd, hc] at h
    | some c =>
      by_cases hj : d.joinOk = true
      · simp [add_speaker, hd, hc, hj] at h
      · simp [add_speaker, hd, hc, hj]

/-- `_remove_coordinator` always leaves `members` equal to the erase of
the departing name, whatever the outcome (the discard happens first). -/
theorem remove_coordinator_members (st : St) (sp : Speakers) (d : Device)
    (n : String) :
    (remove_coordinator st sp d n).state.members = st.members.erase n := by
  cases he : st.members.erase n with
  | nil =>
    by_cases hu : d.unjoinOk = true <;>
      simp [remove_coordinator, he, hu]
  | cons newName others =>
    cases hl : lookupSp sp newName with
    | none => simp [remove_coordinator, he, hl]
    | some nc =>
      by_cases hu : nc.unjoinOk = true
      · rcases hrj : rejoinLoop sp n nc.player_name others with ⟨ok, calls⟩
        cases ok
        · simp [remove_coordinator, he, hl, hu, hrj]
        · by_cases hdu : d.unjoinOk = true <;>
            simp [remove_coordinator, he, hl, hu, hrj, hdu]
      · simp [remove_coordinator, he, hl, hu]

/-- A successful `_remove_speaker` run leaves `members` equal to the erase
of the removed name (a no-op when the name was not a member, since erasing
a non-member changes nothing). -/
theorem remove_speaker_ok_members {st : St} {sp : Speakers} {n : String}
    (h : (remove_speaker st sp n).result = none) :
    (remove_speaker st sp n).state.members = st.members.erase n := by
  cases hd : lookupSp sp n with
  | none => simp [remove_speaker, hd] at h
  | some d =>
    by_cases hmem : n ∈ st.members
    · cases hc : st.coordinator with
      | some c =>
        by_cases hpc : d.player_name = c
        · have hgoal : remove_speaker st sp n = remove_coordinator st sp d n := by
            simp [remove_speaker, hd, hmem, hc, hpc]
          rw [hgoal]
          exact remove_coordinator_members st sp d n
        · by_cases hu : d.unjoinOk = true
          · simp [remove_speaker, remove_plain, hd, hmem, hc, hpc, hu]
          · simp [remove_speaker, remove_plain, hd, hmem, hc, hpc, hu] at h
      | none =>
        by_cases hu : d.unjoinOk = true
        · simp [remove_speaker, remove_plain, hd, hmem, hc, hu]
        · simp [remove_speaker, remove_plain, hd, hmem, hc, hu] at h
    · simp [remove_speaker, hd, hmem, List.erase_of_not_mem hmem]

theorem addLoop_cons_err {sp : Speakers} {st : St} {n : String}
    {rest : List String} {e : Err}
    (h1 : (add_speaker st sp n).result = some e) :
    addLoop sp st (n :: rest) = add_speaker st sp n := by
  show seqRes (add_speaker st sp n) (fun s1 => addLoop sp s1 rest) = _
  exact seqRes_err h1

theorem addLoop_cons_ok {sp : Speakers} {st : St} {n : String}
    {rest : List String}
    (h1 : (add_speaker st sp n).result = none) :
    addLoop sp st (n :: rest) =
      ⟨(addLoop sp (add_speaker st sp n).state rest).result,
       (addLoop sp (add_speaker st sp n).state rest).state,
       (add_speaker st sp n).calls ++
         (addLoop sp (add_speaker st sp n).state rest).calls⟩ := by
  show seqRes (add_speaker st sp n) (fun s1 => addLoop sp s1 rest) = _
  rw [seqRes_ok h1]

theorem removeLoop_cons_err {sp : Speakers} {st : St} {n : String}
    {rest : List String} {e : Err}
    (h1 : (remove_speaker st sp n).result = some e) :
    removeLoop sp st (n :: rest) = remove_speaker st sp n := by
  show seqRes (remove_speaker st sp n) (fun s1 => removeLoop sp s1 rest) = _
  exact seqRes_err h1

theorem removeLoop_cons_ok {sp : Speakers} {st : St} {n : String}
    {rest : List String}
    (h1 : (remove_speaker st sp n).result = none) :
    removeLoop sp st (n :: rest) =
      ⟨(removeLoop sp (remove_speaker st sp n).state rest).result,
       (removeLoop sp (remove_speaker st sp n).state rest).state,
       (remove_speaker st sp n).calls ++
         (removeLoop sp (remove_speaker st sp n).state rest).calls⟩ := by
  show seqRes (remove_speaker st sp n) (fun s1 => removeLoop sp s1 rest) = _
  rw [seqRes_ok h1]

/-- `_add_speaker` keeps `members` duplicate-free on a successful run. -/
theorem add_speaker_ok_nodup {st : St} {sp : Speakers} {n : String}
    (hnd : st.members.Nodup) (h : (add_speaker st sp n).result = none) :
    (add_speaker st sp n).state.members.Nodup := by
  obtain ⟨d, hd, hcase⟩ := add_speaker_ok h
  rcases hcase with ⟨hc, heq⟩ | ⟨c, hc, hj, heq⟩
  · rw [heq]
    simp
  · rw [heq]
    exact sAdd_nodup hnd

/-- `_remove_speaker` keeps `members` duplicate-free on a successful run. -/
theorem remove_speaker_ok_nodup {st : St} {sp : Speakers} {n : String}
    (hnd : st.members.Nodup) (h : (remove_speaker st sp n).result = none) :
    (remove_speaker st sp n).state.members.Nodup := by
  rw [remove_speaker_ok_members h]
  exact hnd.erase n

/-- Through a successful add loop run from a state with a coordinator, the
coordinator is unchanged and the members become the union of the old
members with the processed names. -/
theorem addLoop_ok_members (sp : Speakers) (c : String) :
    ∀ ns st, st.coordinator = some c → (addLoop sp st ns).result = none →
      ((addLoop sp st ns).state.coordinator = some c ∧
        ∀ x, (x ∈ (addLoop sp st ns).state.members ↔
          x ∈ st.members ∨ x ∈ ns)) := by
  intro ns
  induction ns with
  | nil =>
    intro st hc _
    exact ⟨hc, fun x => by simp [addLoop, opLoop]⟩
  | cons n rest ih =>
    intro st hc h
    cases h1 : (add_speaker st sp n).result with
    | some e =>
      rw [addLoop_cons_err h1, h1] at h
      cases h
    | none =>
      have h2 : (addLoop sp (add_speaker st sp n).state rest).result = none := by
        rw [addLoop_cons_ok h1] at h
        exact h
      obtain ⟨d, hd, hcase⟩ := add_speaker_ok h1
      rcases hcase with ⟨hc0, _⟩ | ⟨c', hc', hj, heq⟩
      · rw [hc] at hc0
        cases hc0
      · rw [hc] at hc'
        injection hc' with hcc
        subst hcc
        have hIH := ih (add_speaker st sp n).state (by rw [heq]) h2
        rw [addLoop_cons_ok h1]
        refine ⟨hIH.1, ?_⟩
        intro x
        have hx := hIH.2 x
        rw [heq] at hx
        show x ∈ (addLoop sp (add_speaker st sp n).state rest).state.members ↔ _
        rw [heq, hx]
        simp [mem_sAdd, List.mem_cons, or_assoc]

/-- Through a successful remove loop run from a duplicate-free state, the
members become the old members minus the processed names. -/
theorem removeLoop_ok_members (sp : Speakers) :
    ∀ ns st, st.members.Nodup → (removeLoop sp st ns).result = none →
      ((removeLoop sp st ns).state.members.Nodup ∧
        ∀ x, (x ∈ (removeLoop sp st ns).state.members ↔
          x ∈ st.members ∧ x ∉ ns)) := by
  intro ns
  induction ns with
  | nil =>
    intro st hnd _
    exact ⟨hnd, fun x => by simp [removeLoop, opLoop]⟩
  | cons n rest ih =>
    intro st hnd h
    cases h1 : (remove_speaker st sp n).result with
    | some e =>
      rw [removeLoop_cons_err h1, h1] at h
      cases h
    | none =>
      have h2 : (removeLoop sp (remove_speaker st sp n).state rest).result = none := by
        rw [removeLoop_cons_ok h1] at h
        exact h
      have hm := remove_speaker_ok_members h1
      have hnd1 : (remove_speaker st sp n).state.members.Nodup := by
        rw [hm]
        exact hnd.erase n
      have hIH := ih _ hnd1 h2
      rw [removeLoop_cons_ok h1]
      refine ⟨hIH.1, ?_⟩
      intro x
      have hx := hIH.2 x
      rw [hm, hnd.mem_erase_iff] at hx
      show x ∈ (removeLoop sp (remove_speaker st sp n).state rest).state.members ↔ _
      rw [hx]
      simp only [List.mem_cons]
      tauto

theorem findPlaying_mem {l : List Device} {d : Device}
    (h : findPlaying l = some d) : d ∈ l :=
  List.mem_of_find?_eq_some h

/-- The fresh-group path writes the same store on every exit. -/
theorem freshGroup_state (first : Device) (rest : List Device) :
    (freshGroup first rest).state =
      ⟨some first.player_name, ((first :: rest).map Device.player_name).dedup⟩ := by
  rcases hu : unjoinAll (first :: rest) with ⟨ok1, c1⟩
  cases ok1
  · simp [freshGroup, hu]
  · rcases hj : joinAll first.player_name rest with ⟨ok2, c2⟩
    cases ok2 <;> simp [freshGroup, hu, hj]

/-- The fresh-group store satisfies the invariant (also on raising exits,
since it is written before the device calls). -/
theorem freshGroup_inv (first : Device) (rest : List Device) :
    storeInv (freshGroup first rest).state := by
  have hmem : first.player_name ∈
      ((first :: rest).map Device.player_name).dedup := by
    simp [List.mem_dedup]
  rw [freshGroup_state]
  unfold storeInv
  refine ⟨⟨?_, ?_⟩, ?_⟩
  · intro h
    cases h
  · intro h
    exact absurd h (List.ne_nil_of_mem hmem)
  · intro c hc
    injection hc with hc2
    rw [← hc2]
    exact hmem

/-- `initialize` preserves the store invariant whenever the directory is
well formed, on every path (the raising exits of the fresh-group path
have already written a coherent store). -/
theorem initGroup_inv {st : St} {sp : Speakers}
    (hwf : wellFormedDir sp) (hst : storeInv st) :
    storeInv (initGroup st sp).state := by
  cases sp with
  | nil => simpa [initGroup] using hst
  | cons p ps =>
    cases hf : findPlaying (p.2 :: ps.map Prod.snd) with
    | none =>
      simp only [initGroup, hf]
      exact freshGroup_inv _ _
    | some playing =>
      cases hs : playing.snapshot with
      | none =>
        simp only [initGroup, hf, hs]
        exact freshGroup_inv _ _
      | some pr =>
        obtain ⟨c, ms⟩ := pr
        have hplay2 : playing ∈ (p :: ps).map Prod.snd := by
          simpa using findPlaying_mem hf
        obtain ⟨q, hq, hq2⟩ := List.mem_map.mp hplay2
        have hsnap : snapWF playing := hq2 ▸ (hwf q hq).2
        have hcd : c ∈ ms.dedup := List.mem_dedup.mpr (hsnap c ms hs)
        simp only [initGroup, hf, hs]
        unfold storeInv
        refine ⟨⟨?_, ?_⟩, ?_⟩
        · intro h
          cases h
        · intro h
          exact absurd h (List.ne_nil_of_mem hcd)
        · intro c' hc'
          injection hc' with h2
          rw [← h2]
          exact hcd

/-- `_add_speaker` preserves the store invariant on successful runs
against a well-formed directory. -/
theorem add_speaker_inv {st : St} {sp : Speakers} {n : String}
    (hwf : wellFormedDir sp) (hst : storeInv st)
    (h : (add_speaker st sp n).result = none) :
    storeInv (add_speaker st sp n).state := by
  obtain ⟨d, hd, hcase⟩ := add_speaker_ok h
  have hdn := (lookupSp_wf hwf hd).1
  rcases hcase with ⟨hc, heq⟩ | ⟨c, hc, hj, heq⟩
  · rw [heq]
    unfold storeInv
    refine ⟨⟨?_, ?_⟩, ?_⟩
    · intro h2
      cases h2
    · intro h2
      cases h2
    · intro c' hc'
      injection hc' with h2
      rw [← h2, hdn]
      simp
  · rw [heq]
    unfold storeInv
    have hin : c ∈ sAdd st.members n := mem_sAdd.mpr (Or.inl (hst.2 c hc))
    refine ⟨⟨?_, ?_⟩, ?_⟩
    · intro h2
      cases h2
    · intro h2
      exact absurd h2 (List.ne_nil_of_mem hin)
    · intro c' hc'
      injection hc' with h2
      rw [← h2]
      exact hin

/-- `_remove_coordinator` restores the store invariant on successful runs
against a well-formed directory. -/
theorem remove_coordinator_inv {st : St} {sp : Speakers} {d : Device}
    {n : String} (hwf : wellFormedDir sp)
    (h : (remove_coordinator st sp d n).result = none) :
    storeInv (remove_coordinator st sp d n).state := by
  cases he : st.members.erase n with
  | nil =>
    by_cases hu : d.unjoinOk = true
    · have hrw : remove_coordinator st sp d n =
          ⟨none, ⟨none, []⟩, [.unjoin d.player_name]⟩ := by
        simp [remove_coordinator, he, hu]
      rw [hrw]
      unfold storeInv
      refine ⟨⟨?_, ?_⟩, ?_⟩
      · intro h2
        rfl
      · intro h2
        rfl
      · intro c' hc'
        cases hc'
    · simp [remove_coordinator, he, hu] at h
  | cons newName others =>
    cases hl : lookupSp sp newName with
    | none => simp [remove_coordinator, he, hl] at h
    | some nc =>
      have hname := (lookupSp_wf hwf hl).1
      by_cases hu : nc.unjoinOk = true
      · rcases hrj : rejoinLoop sp n nc.player_name others with ⟨ok, calls⟩
        cases ok
        · simp [remove_coordinator, he, hl, hu, hrj] at h
        · by_cases hdu : d.unjoinOk = true
          · have hrw : remove_coordinator st sp d n =
                ⟨none, ⟨some nc.player_name, newName :: others⟩,
                  .unjoin nc.player_name :: (calls ++ [.unjoin d.player_name])⟩ := by
              simp [remove_coordinator, he, hl, hu, hrj, hdu]
            rw [hrw]
            unfold storeInv
            refine ⟨⟨?_, ?_⟩, ?_⟩
            · intro h2
              cases h2
            · intro h2
              cases h2
            · intro c' hc'
              injection hc' with h2
              rw [← h2, hname]
              exact List.mem_cons_self _ _
          · simp [remove_coordinator, he, hl, hu, hrj, hdu] at h
      · simp [remove_coordinator, he, hl, hu] at h

/-- `_remove_speaker` preserves the store invariant on successful runs
against a well-formed directory. -/
theorem remove_speaker_inv {st : St} {sp : Speakers} {n : String}
    (hwf : wellFormedDir sp) (hst : storeInv st)
    (h : (remove_speaker st sp n).result = none) :
    storeInv (remove_speaker st sp n).state := by
  cases hd : lookupSp sp n with
  | none => simp [remove_speaker, hd] at h
  | some d =>
    have hdn := (lookupSp_wf hwf hd).1
    by_cases hmem : n ∈ st.members
    · cases hc : st.coordinator with
      | none =>
        have hnil : st.members = [] := hst.1.mp hc
        rw [hnil] at hmem
        cases hmem
      | some c =>
        by_cases hpc : d.player_name = c
        · have hrw : remove_speaker st sp n = remove_coordinator st sp d n := by
            simp [remove_speaker, hd, hmem, hc, hpc]
          rw [hrw] at h ⊢
          exact remove_coordinator_inv hwf h
        · by_cases hu : d.unjoinOk = true
          · have hrw : remove_speaker st sp n =
                ⟨none, ⟨st.coordinator, st.members.erase n⟩,
                  [.unjoin d.player_name]⟩ := by
              simp [remove_speaker, remove_plain, hd, hmem, hc, hpc, hu]
            rw [hrw]
            unfold storeInv
            have hcne : c ≠ n := fun hcn => hpc (hdn.trans hcn.symm)
            have hce : c ∈ st.members.erase n :=
              (List.mem_erase_of_ne hcne).mpr (hst.2 c hc)
            refine ⟨⟨?_, ?_⟩, ?_⟩
            · intro h2
              rw [hc] at h2
              cases h2
            · intro h2
              exact absurd h2 (List.ne_nil_of_mem hce)
            · intro c' hc'
              rw [hc] at hc'
              injection hc' with h2
              rw [← h2]
              exact hce
          · simp [remove_speaker, remove_plain, hd, hmem, hc, hpc, hu] at h
    · have hrw : remove_speaker st sp n = ⟨none, st, []⟩ := by
        simp [remove_speaker, hd, hmem]
      rw [hrw]
      exact hst

/-- `set_members` preserves the store invariant on successful runs
against a well-formed directory. -/
theorem set_members_inv {st : St} {sp : Speakers} {ns : List String}
    (hwf : wellFormedDir sp) (hst : storeInv st)
    (h : (set_members st sp ns).result = none) :
    storeInv (set_members st sp ns).state := by
  cases ns with
  | nil => simp [set_members] at h
  | cons n0 rest =>
    have hrw : set_members st sp (n0 :: rest) =
        seqRes (addLoop sp st (toAddOf st (n0 :: rest)))
          (fun s1 => removeLoop sp s1 (toRemoveOf st (n0 :: rest))) := rfl
    rw [hrw] at h ⊢
    obtain ⟨h1, h2⟩ := seqRes_ok_split h
    rw [seqRes_ok h1]
    show storeInv (removeLoop sp
      (addLoop sp st (toAddOf st (n0 :: rest))).state
      (toRemoveOf st (n0 :: rest))).state
    have hstA := opLoop_inv _ storeInv
      (fun s m hP hok => add_speaker_inv hwf hP hok) _ st hst h1
    exact opLoop_inv _ storeInv
      (fun s m hP hok => remove_speaker_inv hwf hP hok) _ _ hstA h2

theorem addLoop_append (sp : Speakers) (ns1 ns2 : List String) (st : St) :
    addLoop sp st (ns1 ++ ns2) =
      seqRes (addLoop sp st ns1) (fun s => addLoop sp s ns2) :=
  opLoop_append _ ns1 ns2 st

theorem removeLoop_append (sp : Speakers) (ns1 ns2 : List String) (st : St) :
    removeLoop sp st (ns1 ++ ns2) =
      seqRes (removeLoop sp st ns1) (fun s => removeLoop sp s ns2) :=
  opLoop_append _ ns1 ns2 st

/-- The rejoin loop on names that all resolve to working devices distinct
from the departing one: it runs to completion and issues exactly an unjoin
followed by a join to the new coordinator, per name in order. -/
theorem rejoinLoop_ok (sp : Speakers) (dep t : String) :
    ∀ ns : List String,
      (∀ n ∈ ns, ∃ d, lookupSp sp n = some d ∧ d.player_name = n ∧
        d.unjoinOk = true ∧ d.joinOk = true ∧ n ≠ dep) →
      rejoinLoop sp dep t ns =
        (true, ns.flatMap (fun n => [Call.unjoin n, Call.join n t])) := by
  intro ns
  induction ns with
  | nil =>
    intro _
    simp [rejoinLoop]
  | cons n rest ih =>
    intro hall
    obtain ⟨d, hd, hdn, hdu, hdj, hne⟩ := hall n (List.mem_cons_self _ _)
    have hrest := ih (fun m hm => hall m (List.mem_cons_of_mem _ hm))
    have hpd : ¬(d.player_name = dep) := by
      rw [hdn]
      exact hne
    simp [rejoinLoop, hd, hpd, hdu, hdj, hrest, hdn, hne]

/-- The rejoin loop silently skips a name that does not resolve: with every
other name resolving to a working device distinct from the departing one,
the loop still completes and issues no call on the missing name's device. -/
theorem rejoinLoop_skip (sp : Speakers) (dep t m : String)
    (hm : lookupSp sp m = none) :
    ∀ ns : List String,
      (∀ n ∈ ns, n ≠ m → ∃ d, lookupSp sp n = some d ∧ d.player_name = n ∧
        d.unjoinOk = true ∧ d.joinOk = true ∧ n ≠ dep) →
      ((rejoinLoop sp dep t ns).1 = true ∧
       ∀ cl ∈ (rejoinLoop sp dep t ns).2, cl.device ≠ m) := by
  intro ns
  induction ns with
  | nil =>
    intro _
    simp [rejoinLoop]
  | cons n rest ih =>
    intro hall
    have hrest := ih (fun k hk hkm => hall k (List.mem_cons_of_mem _ hk) hkm)
    by_cases hnm : n = m
    · subst hnm
      have hrw : rejoinLoop sp dep t (n :: rest) = rejoinLoop sp dep t rest := by
        simp [rejoinLoop, hm]
      rw [hrw]
      exact hrest
    · obtain ⟨d, hd, hdn, hdu, hdj, hne⟩ := hall n (List.mem_cons_self _ _) hnm
      have hpd : ¬(d.player_name = dep) := by
        rw [hdn]
        exact hne
      have hrw : rejoinLoop sp dep t (n :: rest) =
          ((rejoinLoop sp dep t rest).1,
            Call.unjoin d.player_name :: Call.join d.player_name t ::
              (rejoinLoop sp dep t rest).2) := by
        simp [rejoinLoop, hd, hpd, hdu, hdj]
      rw [hrw]
      refine ⟨hrest.1, ?_⟩
      intro cl hcl
      rcases List.mem_cons.mp hcl with rfl | hcl2
      · show d.player_name ≠ m
        rw [hdn]
        exact hnm
      · rcases List.mem_cons.mp hcl2 with rfl | hcl3
        · show d.player_name ≠ m
          rw [hdn]
          exact hnm
        · exact hrest.2 cl hcl3

/-! Concrete devices and directories used by the witnesses and
counterexamples. -/

/-- An idle, fully working device named "A". -/
def devA : Device := ⟨"A", true, true, some (some "STOPPED"), none⟩

/-- An idle, fully working device named "B". -/
def devB : Device := ⟨"B", true, true, some (some "STOPPED"), none⟩

/-- An idle, fully working device named "C". -/
def devC : Device := ⟨"C", true, true, some (some "STOPPED"), none⟩

/-- An idle device named "A" whose unjoin call fails. -/
def devAFail : Device := ⟨"A", true, false, some (some "STOPPED"), none⟩

/-- An idle device named "B" whose join call fails. -/
def devBJoinFail : Device := ⟨"B", false, true, some (some "STOPPED"), none⟩

/-- An idle device named "B" whose unjoin call fails. -/
def devBUnjoinFail : Device := ⟨"B", true, false, some (some "STOPPED"), none⟩

/-- A device named "A" reporting PLAYING whose group snapshot read fails. -/
def devAPlayNoSnap : Device := ⟨"A", true, true, some (some "PLAYING"), none⟩

/-- A device named "A" reporting PAUSED_PLAYBACK with snapshot
(coordinator "A", members {"A", "B"}). -/
def devAPaused : Device :=
  ⟨"A", true, true, some (some "PAUSED_PLAYBACK"), some ("A", ["A", "B"])⟩

def dirA : Speakers := [("A", devA)]
def dirAFail : Speakers := [("A", devAFail)]
def dirCB : Speakers := [("C", devC), ("B", devB)]
def dirAB : Speakers := [("A", devA), ("B", devB)]
def dirABC : Speakers := [("A", devA), ("B", devB), ("C", devC)]
def dirABJoinFail : Speakers := [("A", devA), ("B", devBJoinFail)]
def dirABUnjoinFail : Speakers := [("A", devA), ("B", devBUnjoinFail)]
def dirPlayNoSnap : Speakers := [("A", devAPlayNoSnap)]
def dirPaused : Speakers := [("A", devAPaused), ("B", devB), ("C", devC)]

/-- C1 (counterexample): the claimed invariant is violated on a reachable
state once raising calls are included.  From the empty store, addMember "A"
bootstraps the group {A}; removeMember "A" against a device whose unjoin
raises leaves the store with `coordinator = some "A"` but `members = {}`
(the discard happened before the failing unjoin, and `coordinator = None`
is only assigned after the unjoin succeeds), violating
`coordinator is None ⇔ members is empty`. -/
theorem C1_invariant_counterexample :
    Reachable ⟨some "A", []⟩ ∧ ¬ storeInv ⟨some "A", []⟩ := by
  constructor
  · have h1 := Reachable.addStep ⟨none, []⟩ dirAFail "A" Reachable.empty
    have e1 : (add_speaker ⟨none, []⟩ dirAFail "A").state = ⟨some "A", ["A"]⟩ := by
      decide
    rw [e1] at h1
    have h2 := Reachable.removeStep ⟨some "A", ["A"]⟩ dirAFail "A" h1
    have e2 : (remove_speaker ⟨some "A", ["A"]⟩ dirAFail "A").state =
        ⟨some "A", []⟩ := by
      decide
    rw [e2] at h2
    exact h2
  · decide

/-- C1 (amended): for every state of the Membership Store reachable from
the initial empty store by sequences of initialize, setMembers, addMember,
removeMember calls that return normally (no exception), with name-coherent
speaker directories and well-formed device snapshots, the invariant holds:
the coordinator is None iff the members set is empty, and a set
coordinator's name is an element of the members set. -/
theorem C1_invariant_ok_reachable : ∀ st : St, ReachableOk st → storeInv st := by
  intro st h
  induction h with
  | empty =>
    unfold storeInv
    refine ⟨⟨?_, ?_⟩, ?_⟩
    · intro _
      rfl
    · intro _
      rfl
    · intro c hc
      cases hc
  | initStep st sp h hwf hok ih => exact initGroup_inv hwf ih
  | setStep st sp ns h hwf hok ih => exact set_members_inv hwf ih hok
  | addStep st sp n h hwf hok ih => exact add_speaker_inv hwf ih hok
  | removeStep st sp n h hwf hok ih => exact remove_speaker_inv hwf ih hok

/-- Witness for C1: the invariant at the state reached by a successful
addMember "A" from the empty store. -/
theorem C1_invariant_witness : storeInv ⟨some "A", ["A"]⟩ := by
  have h1 := ReachableOk.addStep ⟨none, []⟩ dirA "A" ReachableOk.empty
    (by decide) (by decide)
  have e1 : (add_speaker ⟨none, []⟩ dirA "A").state = ⟨some "A", ["A"]⟩ := by
    decide
  rw [e1] at h1
  exact C1_invariant_ok_reachable _ h1

/-- C2 (counterexample): initialize's fresh-group path writes the store
before any device call: with a single idle device "A" whose unjoin raises,
the only device call of the run fails, yet the store has changed from the
empty store to `coordinator = "A", members = {"A"}`. -/
theorem C2_premature_counterexample :
    initGroup ⟨none, []⟩ dirAFail =
      ⟨some .groupOperation, ⟨some "A", ["A"]⟩, [.unjoin "A"]⟩ ∧
    (⟨some "A", ["A"]⟩ : St) ≠ (⟨none, []⟩ : St) := by
  constructor
  · decide
  · decide

/-- C2 (amended): addMember never mutates the store on a raising run, and
removeMember of a device that is not the coordinator never mutates the
store on a raising run (the device call precedes the store update in
both); initialize's fresh-group path and coordinator removal, by contrast,
update the store before their device calls complete. -/
theorem C2_no_premature_mutation :
    (∀ (st : St) (sp : Speakers) (n : String) (e : Err),
      (add_speaker st sp n).result = some e →
      (add_speaker st sp n).state = st) ∧
    (∀ (st : St) (sp : Speakers) (n : String) (d : Device) (e : Err),
      lookupSp sp n = some d →
      (∀ c, st.coordinator = some c → d.player_name ≠ c) →
      (remove_speaker st sp n).result = some e →
      (remove_speaker st sp n).state = st) := by
  constructor
  · intro st sp n e h
    exact add_speaker_err h
  · intro st sp n d e hd hnc h
    by_cases hmem : n ∈ st.members
    · cases hc : st.coordinator with
      | none =>
        by_cases hu : d.unjoinOk = true
        · simp [remove_speaker, remove_plain, hd, hmem, hc, hu] at h
        · simp [remove_speaker, remove_plain, hd, hmem, hc, hu]
      | some c =>
        have hpc : ¬(d.player_name = c) := hnc c hc
        by_cases hu : d.unjoinOk = true
        · simp [remove_speaker, remove_plain, hd, hmem, hc, hpc, hu] at h
        · simp [remove_speaker, remove_plain, hd, hmem, hc, hpc, hu]
    · simp [remove_speaker, hd, hmem] at h

/-- Witness for C2: a failing join leaves the store of an addMember run
unchanged, and a failing unjoin leaves the store of a non-coordinator
removeMember run unchanged. -/
theorem C2_no_premature_mutation_witness :
    (add_speaker ⟨some "A", ["A"]⟩ dirABJoinFail "B").state =
      ⟨some "A", ["A"]⟩ ∧
    (remove_speaker ⟨some "A", ["A", "B"]⟩ dirABUnjoinFail "B").state =
      ⟨some "A", ["A", "B"]⟩ := by
  constructor
  · exact C2_no_premature_mutation.1 ⟨some "A", ["A"]⟩ dirABJoinFail "B"
      .groupOperation (by decide)
  · refine C2_no_premature_mutation.2 ⟨some "A", ["A", "B"]⟩ dirABUnjoinFail
      "B" devBUnjoinFail .groupOperation (by decide) ?_ (by decide)
    intro c hc
    injection hc with h2
    rw [← h2]
    decide

/-- C3 (counterexample): device "A" reports PLAYING but its group snapshot
read fails; initialize falls through to the fresh-group path and issues an
unjoin call on "A", contradicting the claim that no join/unjoin is issued
whenever some device's transport query reports playing/paused. -/
theorem C3_playback_counterexample :
    isActive devAPlayNoSnap = true ∧
    initGroup ⟨none, []⟩ dirPlayNoSnap =
      ⟨none, ⟨some "A", ["A"]⟩, [.unjoin "A"]⟩ := by
  constructor
  · decide
  · decide

/-- C3 (amended): whenever the scan finds a playing/paused device (the
first such device in list order, per `List.find?`) AND that device's group
snapshot reads successfully, initialize issues no join and no unjoin call
on any device and the resulting store equals exactly that snapshot:
coordinator is the snapshot coordinator and members is the snapshot
member-name set. -/
theorem C3_playback_preservation {st : St} {sp : Speakers} {playing : Device}
    {c : String} {ms : List String}
    (hfind : findPlaying (sp.map Prod.snd) = some playing)
    (hsnap : playing.snapshot = some (c, ms)) :
    initGroup st sp = ⟨none, ⟨some c, ms.dedup⟩, []⟩ ∧
    (initGroup st sp).calls = [] ∧
    (initGroup st sp).state.coordinator = some c ∧
    (∀ x, x ∈ (initGroup st sp).state.members ↔ x ∈ ms) := by
  cases sp with
  | nil => simp [findPlaying] at hfind
  | cons p ps2 =>
    have hf2 : findPlaying (p.2 :: ps2.map Prod.snd) = some playing := by
      simpa [findPlaying] using hfind
    have hrw : initGroup st (p :: ps2) = ⟨none, ⟨some c, ms.dedup⟩, []⟩ := by
      simp [initGroup, hf2, hsnap]
    rw [hrw]
    refine ⟨rfl, rfl, rfl, ?_⟩
    intro x
    show x ∈ ms.dedup ↔ x ∈ ms
    exact List.mem_dedup

/-- Witness for C3: device "A" is paused with snapshot (A, {A, B}); the
directory also holds idle devices "B" and "C"; initialize copies the
snapshot, touching no device. -/
theorem C3_playback_preservation_witness :
    initGroup ⟨none, []⟩ dirPaused =
      ⟨none, ⟨some "A", (["A", "B"] : List String).dedup⟩, []⟩ :=
  (@C3_playback_preservation ⟨none, []⟩ dirPaused devAPaused "A" ["A", "B"]
    (by decide) (by decide)).1

/-- C4 (counterexample): with current members {C} and desired
{C, A, B} where "A" does not resolve but "B" resolves to a working device,
set_members raises at "A" and returns with "B" neither joined nor recorded,
although "B" is in the computed add set: the per-name operations are not
independent and the failure does abort the rest. -/
theorem C4_independence_counterexample :
    set_members ⟨some "C", ["C"]⟩ dirCB ["C", "A", "B"] =
      ⟨some .speakerNotFound, ⟨some "C", ["C"]⟩, []⟩ ∧
    "B" ∈ toAddOf ⟨some "C", ["C"]⟩ ["C", "A", "B"] ∧
    resolvedOk dirCB "B" = true := by
  refine ⟨?_, ?_, ?_⟩
  · decide
  · decide
  · decide

/-- C4 (amended): within one setMembers call the per-name operations are
NOT independent: the first failure propagates immediately, so the names
after the failing one in the processed order are never attempted, and when
an add fails the whole remove set is never attempted; changes already
applied before the failure are retained.  Formally: a loop run over a
prefix that raises determines the run over any extension, and a raising
add loop determines the whole set_members result. -/
theorem C4_first_failure_aborts :
    (∀ (sp : Speakers) (st : St) (ns1 ns2 : List String) (e : Err),
      (addLoop sp st ns1).result = some e →
      addLoop sp st (ns1 ++ ns2) = addLoop sp st ns1) ∧
    (∀ (sp : Speakers) (st : St) (ns1 ns2 : List String) (e : Err),
      (removeLoop sp st ns1).result = some e →
      removeLoop sp st (ns1 ++ ns2) = removeLoop sp st ns1) ∧
    (∀ (st : St) (sp : Speakers) (n0 : String) (rest : List String) (e : Err),
      (addLoop sp st (toAddOf st (n0 :: rest))).result = some e →
      set_members st sp (n0 :: rest) = addLoop sp st (toAddOf st (n0 :: rest))) := by
  refine ⟨?_, ?_, ?_⟩
  · intro sp st ns1 ns2 e h
    exact opLoop_abort _ ns2 h
  · intro sp st ns1 ns2 e h
    exact opLoop_abort _ ns2 h
  · intro st sp n0 rest e h
    show seqRes (addLoop sp st (toAddOf st (n0 :: rest)))
      (fun s1 => removeLoop sp s1 (toRemoveOf st (n0 :: rest))) = _
    exact seqRes_err h

/-- Witness for C4: a failing one-name prefix determines the extended run. -/
theorem C4_first_failure_aborts_witness :
    addLoop dirCB ⟨some "C", ["C"]⟩ (["A"] ++ ["B"]) =
      addLoop dirCB ⟨some "C", ["C"]⟩ ["A"] :=
  C4_first_failure_aborts.1 dirCB ⟨some "C", ["C"]⟩ ["A"] ["B"]
    .speakerNotFound (by decide)

/-- C5: removing the current coordinator with members remaining, when all
names resolve to working devices, runs exactly the promotion protocol:
unjoin on the chosen replacement (the head of the remaining-member list)
first; then, for each other remaining member in order, unjoin followed by
join(replacement); finally unjoin on the departing old coordinator as the
last call — and the replacement is installed as the store's coordinator
with the remaining members as the member set. -/
theorem C5_promotion_protocol {st : St} {sp : Speakers} {name r : String}
    {others : List String}
    (hwf : wellFormedDir sp)
    (hnd : st.members.Nodup)
    (hcoord : st.coordinator = some name)
    (hmem : name ∈ st.members)
    (herase : st.members.erase name = r :: others)
    (hall : ∀ n ∈ st.members, resolvedOk sp n = true) :
    remove_speaker st sp name =
      ⟨none, ⟨some r, r :: others⟩,
        .unjoin r ::
          ((others.flatMap (fun n => [Call.unjoin n, Call.join n r])) ++
            [Call.unjoin name])⟩ := by
  obtain ⟨d, hd, hdj, hdu⟩ := resolvedOk_lookup (hall name hmem)
  have hdn : d.player_name = name := (lookupSp_wf hwf hd).1
  have hr_mem : r ∈ st.members :=
    List.mem_of_mem_erase (herase ▸ List.mem_cons_self r others)
  obtain ⟨nc, hnc, hncj, hncu⟩ := resolvedOk_lookup (hall r hr_mem)
  have hncn : nc.player_name = r := (lookupSp_wf hwf hnc).1
  have hrj : rejoinLoop sp name nc.player_name others =
      (true, others.flatMap
        (fun n => [Call.unjoin n, Call.join n nc.player_name])) := by
    apply rejoinLoop_ok
    intro n hn
    have hne : n ∈ st.members.erase name := herase ▸ List.mem_cons_of_mem r hn
    have hnm : n ∈ st.members := List.mem_of_mem_erase hne
    have hnename : n ≠ name := (hnd.mem_erase_iff.mp hne).1
    obtain ⟨dn, hdn2, hdnj, hdnu⟩ := resolvedOk_lookup (hall n hnm)
    exact ⟨dn, hdn2, (lookupSp_wf hwf hdn2).1, hdnu, hdnj, hnename⟩
  have hrw : remove_speaker st sp name = remove_coordinator st sp d name := by
    simp [remove_speaker, hd, hmem, hcoord, hdn]
  rw [hrw]
  rw [hncn] at hrj
  simp [remove_coordinator, herase, hnc, hncu, hncn, hrj, hdu, hdn]

/-- Witness for C5: removing coordinator "A" from {A, B, C} promotes "B",
re-homes "C", and unjoins "A" last. -/
theorem C5_promotion_protocol_witness :
    remove_speaker ⟨some "A", ["A", "B", "C"]⟩ dirABC "A" =
      ⟨none, ⟨some "B", "B" :: ["C"]⟩,
        .unjoin "B" ::
          (((["C"] : List String).flatMap
            (fun n => [Call.unjoin n, Call.join n "B"])) ++
            [Call.unjoin "A"])⟩ :=
  C5_promotion_protocol (by decide) (by decide) rfl (by decide) (by decide)
    (by decide)

/-- C6: convergence: for every non-empty desired name list, from any store
whose fields are coherent (`coordinator = None` only with empty members, a
set model with no duplicates), if set_members returns without raising then
get_members afterwards equals exactly the desired set. -/
theorem C6_convergence {st : St} {sp : Speakers} {names : List String}
    (hne : names ≠ [])
    (hnd : st.members.Nodup)
    (hcinv : st.coordinator = none → st.members = [])
    (hok : (set_members st sp names).result = none) :
    ∀ x, x ∈ get_members (set_members st sp names).state ↔ x ∈ names := by
  cases names with
  | nil => exact absurd rfl hne
  | cons n0 rest =>
    have hrw : set_members st sp (n0 :: rest) =
        seqRes (addLoop sp st (toAddOf st (n0 :: rest)))
          (fun s1 => removeLoop sp s1 (toRemoveOf st (n0 :: rest))) := rfl
    rw [hrw] at hok ⊢
    obtain ⟨h1, h2⟩ := seqRes_ok_split hok
    rw [seqRes_ok h1]
    have h2' : (removeLoop sp (addLoop sp st (toAddOf st (n0 :: rest))).state
        (toRemoveOf st (n0 :: rest))).result = none := h2
    intro x
    simp only [get_members]
    show x ∈ (removeLoop sp (addLoop sp st (toAddOf st (n0 :: rest))).state
      (toRemoveOf st (n0 :: rest))).state.members ↔ x ∈ n0 :: rest
    rcases hc : st.coordinator with _ | c
    · -- no coordinator: members empty, so toAdd is the whole desired set
      have hm0 : st.members = [] := hcinv hc
      have hta : toAddOf st (n0 :: rest) = (n0 :: rest).dedup := by
        unfold toAddOf
        rw [hm0]
        simp
      have htr : toRemoveOf st (n0 :: rest) = [] := by
        unfold toRemoveOf
        rw [hm0]
        rfl
      rw [hta] at h1 ⊢
      rw [htr]
      cases hdd : (n0 :: rest).dedup with
      | nil => simp at hdd
      | cons m0 mrest =>
        rw [hdd] at h1
        have ha1 : (add_speaker st sp m0).result = none := by
          cases hr : (add_speaker st sp m0).result with
          | none => rfl
          | some e =>
            rw [addLoop_cons_err hr, hr] at h1
            cases h1
        have ha2 : (addLoop sp (add_speaker st sp m0).state mrest).result =
            none := by
          rw [addLoop_cons_ok ha1] at h1
          exact h1
        obtain ⟨d, hd, hcase⟩ := add_speaker_ok ha1
        rcases hcase with ⟨_, heq⟩ | ⟨c', hc', _, _⟩
        · have hA := addLoop_ok_members sp d.player_name mrest
            (add_speaker st sp m0).state (by rw [heq]) ha2
          rw [addLoop_cons_ok ha1]
          show x ∈ (removeLoop sp
            (addLoop sp (add_speaker st sp m0).state mrest).state []).state.members ↔ _
          rw [show (removeLoop sp
            (addLoop sp (add_speaker st sp m0).state mrest).state []) =
            ⟨none, (addLoop sp (add_speaker st sp m0).state mrest).state, []⟩
            from rfl]
          show x ∈ (addLoop sp (add_speaker st sp m0).state mrest).state.members ↔ _
          rw [heq]
          have hx := hA.2 x
          rw [heq] at hx
          rw [hx]
          have hmd : (x ∈ (n0 :: rest).dedup) ↔ x ∈ n0 :: rest := List.mem_dedup
          rw [hdd] at hmd
          rw [← hmd]
          simp [List.mem_cons]
        · rw [hc] at hc'
          cases hc'
    · -- coordinator present throughout the add loop
      have hA := addLoop_ok_members sp c (toAddOf st (n0 :: rest)) st hc h1
      have nodA : (addLoop sp st (toAddOf st (n0 :: rest))).state.members.Nodup :=
        opLoop_inv _ (fun s => s.members.Nodup)
          (fun s m hP hok2 => add_speaker_ok_nodup hP hok2) _ _ hnd h1
      have hR := removeLoop_ok_members sp (toRemoveOf st (n0 :: rest))
        (addLoop sp st (toAddOf st (n0 :: rest))).state nodA h2'
      rw [hR.2 x, hA.2 x]
      unfold toAddOf toRemoveOf
      have hmd : (x ∈ (n0 :: rest).dedup) ↔ x ∈ n0 :: rest := List.mem_dedup
      simp only [List.mem_filter, decide_eq_true_eq, hmd]
      by_cases hxm : x ∈ st.members <;> by_cases hxn : x ∈ n0 :: rest <;>
        simp [hxm, hxn]

/-- Witness for C6: from store (A, {A, B}) with desired {A, C}, the run
succeeds and "C" ends up a member exactly as desired. -/
theorem C6_convergence_witness :
    "C" ∈ get_members (set_members ⟨some "A", ["A", "B"]⟩ dirABC
      ["A", "C"]).state ↔ "C" ∈ (["A", "C"] : List String) :=
  C6_convergence (by decide) (by decide) (fun h => by cases h) (by decide) "C"

/-- C7: addMember with a coordinator present and a resolvable name: on
join failure it raises GroupOperationError with members and coordinator
unchanged; on join success the members set becomes the old set plus the
name and the coordinator is unchanged. -/
theorem C7_add_atomicity {st : St} {sp : Speakers} {name c : String}
    {d : Device}
    (hcoord : st.coordinator = some c)
    (hd : lookupSp sp name = some d) :
    (d.joinOk = false →
      add_speaker st sp name =
        ⟨some .groupOperation, st, [.join d.player_name c]⟩) ∧
    (d.joinOk = true →
      add_speaker st sp name =
        ⟨none, ⟨some c, sAdd st.members name⟩, [.join d.player_name c]⟩ ∧
      ∀ x, (x ∈ sAdd st.members name ↔ x ∈ st.members ∨ x = name)) := by
  constructor
  · intro hj
    simp [add_speaker, hd, hcoord, hj]
  · intro hj
    exact ⟨by simp [add_speaker, hd, hcoord, hj], fun x => mem_sAdd⟩

/-- Witness for C7: a failing join of "B" into group {A} leaves the store
unchanged and raises GroupOperationError. -/
theorem C7_add_atomicity_witness :
    add_speaker ⟨some "A", ["A"]⟩ dirABJoinFail "B" =
      ⟨some .groupOperation, ⟨some "A", ["A"]⟩, [.join "B" "A"]⟩ :=
  (@C7_add_atomicity ⟨some "A", ["A"]⟩ dirABJoinFail "B" "A" devBJoinFail
    rfl (by decide)).1 (by decide)

/-- C8: idempotence: calling set_members with exactly the current
(non-empty) members set issues zero device calls, raises nothing, and
leaves the store unchanged. -/
theorem C8_idempotence {st : St} {sp : Speakers} {names : List String}
    (hne : st.members ≠ [])
    (hsame : ∀ x, x ∈ names ↔ x ∈ st.members) :
    set_members st sp names = ⟨none, st, []⟩ := by
  cases names with
  | nil =>
    obtain ⟨m, hm⟩ := List.exists_mem_of_ne_nil st.members hne
    have h2 := (hsame m).mpr hm
    cases h2
  | cons n0 rest =>
    have hta : toAddOf st (n0 :: rest) = [] := by
      unfold toAddOf
      rw [List.filter_eq_nil_iff]
      intro a ha
      have ha2 : a ∈ st.members := (hsame a).mp (List.mem_dedup.mp ha)
      simp [ha2]
    have htr : toRemoveOf st (n0 :: rest) = [] := by
      unfold toRemoveOf
      rw [List.filter_eq_nil_iff]
      intro a ha
      have ha2 : a ∈ (n0 :: rest).dedup := List.mem_dedup.mpr ((hsame a).mpr ha)
      simp [ha2]
    show seqRes (addLoop sp st (toAddOf st (n0 :: rest)))
      (fun s1 => removeLoop sp s1 (toRemoveOf st (n0 :: rest))) = _
    rw [hta, htr]
    rw [show addLoop sp st [] = ⟨none, st, []⟩ from rfl, seqRes_ok rfl]
    simp [removeLoop, opLoop]

/-- Witness for C8: set_members over {B, A} against current members
{A, B} is a complete no-op. -/
theorem C8_idempotence_witness :
    set_members ⟨some "A", ["A", "B"]⟩ dirABC ["B", "A"] =
      ⟨none, ⟨some "A", ["A", "B"]⟩, []⟩ := by
  apply C8_idempotence
  · decide
  · intro x
    simp [List.mem_cons, or_comm]

/-- C9: SpeakerNotFoundError, not GroupOperationError, escapes set_members
when processing reaches a name (in the computed add set or remove set)
that does not resolve in the supplied directory, and every per-name change
applied before the failing name is retained in the store (no rollback):
the returned store and call log are exactly those accumulated by the
successfully processed prefix. -/
theorem C9_notfound_propagates {st : St} {sp : Speakers} {n0 : String}
    {rest : List String} :
    (∀ pre bad post,
      toAddOf st (n0 :: rest) = pre ++ bad :: post →
      (addLoop sp st pre).result = none →
      lookupSp sp bad = none →
      set_members st sp (n0 :: rest) =
        ⟨some .speakerNotFound, (addLoop sp st pre).state,
          (addLoop sp st pre).calls⟩) ∧
    (∀ pre bad post,
      (addLoop sp st (toAddOf st (n0 :: rest))).result = none →
      toRemoveOf st (n0 :: rest) = pre ++ bad :: post →
      (removeLoop sp (addLoop sp st (toAddOf st (n0 :: rest))).state
        pre).result = none →
      lookupSp sp bad = none →
      set_members st sp (n0 :: rest) =
        ⟨some .speakerNotFound,
         (removeLoop sp (addLoop sp st (toAddOf st (n0 :: rest))).state
           pre).state,
         (addLoop sp st (toAddOf st (n0 :: rest))).calls ++
           (removeLoop sp (addLoop sp st (toAddOf st (n0 :: rest))).state
             pre).calls⟩) := by
  constructor
  · intro pre bad post hta hpre hbad
    have hb2 : (add_speaker (addLoop sp st pre).state sp bad).result =
        some .speakerNotFound := by
      simp [add_speaker, hbad]
    have hA : addLoop sp st (pre ++ bad :: post) =
        ⟨some .speakerNotFound, (addLoop sp st pre).state,
          (addLoop sp st pre).calls ++ []⟩ := by
      rw [addLoop_append sp pre (bad :: post) st, seqRes_ok hpre]
      show (⟨(addLoop sp (addLoop sp st pre).state (bad :: post)).result,
             (addLoop sp (addLoop sp st pre).state (bad :: post)).state,
             (addLoop sp st pre).calls ++
               (addLoop sp (addLoop sp st pre).state (bad :: post)).calls⟩ :
        Res) = _
      rw [addLoop_cons_err hb2]
      simp [add_speaker, hbad]
    show seqRes (addLoop sp st (toAddOf st (n0 :: rest)))
      (fun s1 => removeLoop sp s1 (toRemoveOf st (n0 :: rest))) = _
    rw [hta, hA]
    rw [@seqRes_err
      ⟨some .speakerNotFound, (addLoop sp st pre).state,
        (addLoop sp st pre).calls ++ []⟩
      (fun s1 => removeLoop sp s1 (toRemoveOf st (n0 :: rest)))
      .speakerNotFound rfl]
    simp
  · intro pre bad post haddok htr hpre hbad
    have hb2 : (remove_speaker (removeLoop sp
        (addLoop sp st (toAddOf st (n0 :: rest))).state pre).state sp
        bad).result = some .speakerNotFound := by
      simp [remove_speaker, hbad]
    have hR : removeLoop sp (addLoop sp st (toAddOf st (n0 :: rest))).state
        (pre ++ bad :: post) =
        ⟨some .speakerNotFound,
         (removeLoop sp (addLoop sp st (toAddOf st (n0 :: rest))).state
           pre).state,
         (removeLoop sp (addLoop sp st (toAddOf st (n0 :: rest))).state
           pre).calls ++ []⟩ := by
      rw [removeLoop_append sp pre (bad :: post)
        (addLoop sp st (toAddOf st (n0 :: rest))).state, seqRes_ok hpre]
      show (⟨(removeLoop sp (removeLoop sp
               (addLoop sp st (toAddOf st (n0 :: rest))).state pre).state
               (bad :: post)).result,
             (removeLoop sp (removeLoop sp
               (addLoop sp st (toAddOf st (n0 :: rest))).state pre).state
               (bad :: post)).state,
             (removeLoop sp (addLoop sp st (toAddOf st (n0 :: rest))).state
               pre).calls ++
               (removeLoop sp (removeLoop sp
                 (addLoop sp st (toAddOf st (n0 :: rest))).state pre).state
                 (bad :: post)).calls⟩ : Res) = _
      rw [removeLoop_cons_err hb2]
      simp [remove_speaker, hbad]
    show seqRes (addLoop sp st (toAddOf st (n0 :: rest)))
      (fun s1 => removeLoop sp s1 (toRemoveOf st (n0 :: rest))) = _
    rw [seqRes_ok haddok]
    show (⟨(removeLoop sp (addLoop sp st (toAddOf st (n0 :: rest))).state
             (toRemoveOf st (n0 :: rest))).result,
           (removeLoop sp (addLoop sp st (toAddOf st (n0 :: rest))).state
             (toRemoveOf st (n0 :: rest))).state,
           (addLoop sp st (toAddOf st (n0 :: rest))).calls ++
             (removeLoop sp (addLoop sp st (toAddOf st (n0 :: rest))).state
               (toRemoveOf st (n0 :: rest))).calls⟩ : Res) = _
    rw [htr, hR]
    simp

/-- Witness for C9: from store (A, {A}) with desired {A, B, Z, C} where
"Z" is absent from the directory: "B" is added first and retained, then
SpeakerNotFoundError propagates. -/
theorem C9_notfound_propagates_witness :
    set_members ⟨some "A", ["A"]⟩ dirAB ["A", "B", "Z", "C"] =
      ⟨some .speakerNotFound,
       (addLoop dirAB ⟨some "A", ["A"]⟩ ["B"]).state,
       (addLoop dirAB ⟨some "A", ["A"]⟩ ["B"]).calls⟩ :=
  (C9_notfound_propagates).1 ["B"] "Z" ["C"] (by decide) (by decide) (by decide)

/-- C10: during coordinator removal with members remaining, a
non-replacement remaining member whose name does not resolve is silently
skipped — the run returns normally and no device call is issued for that
member — whereas an unresolvable replacement makes the run raise
GroupOperationError. -/
theorem C10_member_skip {st : St} {sp : Speakers} {name r : String}
    {others : List String} {d : Device}
    (hwf : wellFormedDir sp)
    (hnd : st.members.Nodup)
    (hcoord : st.coordinator = some name)
    (hd : lookupSp sp name = some d)
    (hmem : name ∈ st.members)
    (herase : st.members.erase name = r :: others) :
    (lookupSp sp r = none →
      remove_speaker st sp name =
        ⟨some .groupOperation, ⟨some name, r :: others⟩, []⟩) ∧
    (∀ m nc, m ∈ others → lookupSp sp m = none →
      lookupSp sp r = some nc → nc.unjoinOk = true → d.unjoinOk = true →
      (∀ k ∈ others, k ≠ m → resolvedOk sp k = true) →
      ((remove_speaker st sp name).result = none ∧
       ∀ cl ∈ (remove_speaker st sp name).calls, cl.device ≠ m)) := by
  have hdn : d.player_name = name := (lookupSp_wf hwf hd).1
  have hrw : remove_speaker st sp name = remove_coordinator st sp d name := by
    simp [remove_speaker, hd, hmem, hcoord, hdn]
  constructor
  · intro hr
    rw [hrw]
    simp [remove_coordinator, herase, hr, hcoord]
  · intro m nc hm hmlook hr hncu hdu hall
    rw [hrw]
    have hnderase : (r :: others).Nodup := herase ▸ hnd.erase name
    have hrno : r ∉ others := (List.nodup_cons.mp hnderase).1
    have halls : ∀ k ∈ others, k ≠ m →
        ∃ dk, lookupSp sp k = some dk ∧ dk.player_name = k ∧
          dk.unjoinOk = true ∧ dk.joinOk = true ∧ k ≠ name := by
      intro k hk hkm
      obtain ⟨dk, hdk, hdkj, hdku⟩ := resolvedOk_lookup (hall k hk hkm)
      have hker : k ∈ st.members.erase name :=
        herase ▸ List.mem_cons_of_mem r hk
      exact ⟨dk, hdk, (lookupSp_wf hwf hdk).1, hdku, hdkj,
        (hnd.mem_erase_iff.mp hker).1⟩
    have hskip := rejoinLoop_skip sp name nc.player_name m hmlook others halls
    rcases hrj : rejoinLoop sp name nc.player_name others with ⟨ok, calls⟩
    rw [hrj] at hskip
    have hok2 : ok = true := hskip.1
    subst hok2
    have hncn : nc.player_name = r := (lookupSp_wf hwf hr).1
    have hco : remove_coordinator st sp d name =
        ⟨none, ⟨some nc.player_name, r :: others⟩,
          .unjoin nc.player_name :: (calls ++ [.unjoin d.player_name])⟩ := by
      simp [remove_coordinator, herase, hr, hncu, hrj, hdu]
    rw [hco]
    refine ⟨rfl, ?_⟩
    intro cl hcl
    rcases List.mem_cons.mp hcl with rfl | hcl2
    · show nc.player_name ≠ m
      rw [hncn]
      intro hrm
      exact hrno (hrm ▸ hm)
    · rcases List.mem_append.mp hcl2 with hcl3 | hcl4
      · exact hskip.2 cl hcl3
      · have hcl5 := List.mem_singleton.mp hcl4
        subst hcl5
        show d.player_name ≠ m
        rw [hdn]
        have hmer : m ∈ st.members.erase name :=
          herase ▸ List.mem_cons_of_mem r hm
        have hmname := (hnd.mem_erase_iff.mp hmer).1
        exact fun hcontra => hmname hcontra.symm

/-- Witness for C10: removing coordinator "A" from {A, B, M, C} with "M"
absent from the directory returns normally. -/
theorem C10_member_skip_witness :
    (remove_speaker ⟨some "A", ["A", "B", "M", "C"]⟩ dirABC "A").result =
      none :=
  ((@C10_member_skip ⟨some "A", ["A", "B", "M", "C"]⟩ dirABC "A" "B"
    ["M", "C"] devA (by decide) (by decide) rfl (by decide) (by decide)
    (by decide)).2 "M" devB (by decide) (by decide) (by decide) (by decide)
    (by decide) (by decide)).1

end Zoneos
